import Mathlib

/-!
# Compression benchmark (`main.go`): selection loop, codec adapters, report writer

A shallow embedding of `src/main.go`.

* `F64` is Go's `float64` (IEEE-754 binary64) as sign / biased exponent /
  fraction, with the comparison, integer conversion, division and addition
  the program uses, rounded to nearest-even.
* `time.Duration` is an `Int` number of nanoseconds.
* Each third-party encoder is an external collaborator.  A `Codec` maps the
  input bytes to a `CodecRun`: which of the constructor / write / close calls
  reported an error, how many bytes ended up in the output buffer, and the
  elapsed time `time.Since(start)` observed by the adapter.
* The `for result := range results` loop of `main` is a left fold of
  `selectStep` over the sequence of results drained from the channel.
* The spreadsheet is the ordered trace of `SetCellValue` calls.
-/

set_option maxRecDepth 100000
set_option exponentiation.threshold 4000

namespace Compression

/-! ## float64 -/

/-- Go `float64`: sign bit, biased exponent (0..2047) and 52-bit fraction. -/
structure F64 where
  sign : Bool
  expo : Nat
  mant : Nat
deriving DecidableEq, Repr

namespace F64

/-- Positive zero, the zero value of `float64`. -/
def zero : F64 := ⟨false, 0, 0⟩

/-- Infinity of the given sign. -/
def inf (s : Bool) : F64 := ⟨s, 2047, 0⟩

/-- The quiet NaN produced by an invalid operation (sign and payload of a
generated NaN are platform details; only `isNaN` is observed). -/
def nan : F64 := ⟨false, 2047, 2 ^ 51⟩

/-- Exponent all ones and a non-zero fraction. -/
def isNaN (x : F64) : Bool := x.expo == 2047 && x.mant != 0

/-- Exponent all ones and a zero fraction. -/
def isInf (x : F64) : Bool := x.expo == 2047 && x.mant == 0

/-- Neither an infinity nor a NaN. -/
def isFinite (x : F64) : Bool := decide (x.expo < 2047)

/-- The 63 magnitude bits `expo * 2^52 + mant`. -/
def mag (x : F64) : Nat := x.expo * 2 ^ 52 + x.mant

/-- Build a value from a sign and 63 magnitude bits. -/
def ofMag (s : Bool) (m : Nat) : F64 := ⟨s, m / 2 ^ 52, m % 2 ^ 52⟩

/-- Signed magnitude: order-isomorphic to the numeric value on non-NaN
values, with both zeros sent to 0. -/
def key (x : F64) : Int := if x.sign then -(x.mag : Int) else (x.mag : Int)

/-- Go `a < b` on float64 (false whenever an operand is NaN). -/
def lt (a b : F64) : Bool := !a.isNaN && !b.isNaN && decide (a.key < b.key)

/-- Go `a > b`. -/
def gt (a b : F64) : Bool := lt b a

/-- Go `a <= b`. -/
def le (a b : F64) : Bool := !a.isNaN && !b.isNaN && decide (a.key ≤ b.key)

/-- Go `a >= b`. -/
def ge (a b : F64) : Bool := le b a

/-- Go `a == b` (false on NaN, true on zeros of either sign). -/
def eq (a b : F64) : Bool := !a.isNaN && !b.isNaN && decide (a.key = b.key)

/-- Floor of the base-2 logarithm, by repeated halving. -/
def log2Aux : Nat → Nat → Nat
  | 0, _ => 0
  | fuel + 1, n => if n < 2 then 0 else log2Aux fuel (n / 2) + 1

/-- Floor of the base-2 logarithm of `n` (0 for `n < 2`). -/
def log2 (n : Nat) : Nat := log2Aux n n

/-- Floor of the base-2 logarithm of the positive rational `num / den`. -/
def ilog2 (num den : Nat) : Int :=
  let e0 : Int := (log2 num : Int) - (log2 den : Int)
  if den * 2 ^ e0.toNat ≤ num * 2 ^ (-e0).toNat then e0 else e0 - 1

/-- Magnitude bits of the float64 nearest to `num / den` (ties to even);
overflow saturates to the bits of infinity. -/
def roundMag (num den : Nat) : Nat :=
  if num = 0 ∨ den = 0 then 0
  else
    let e := ilog2 num den
    let bexp : Int := max (e + 1023) 1
    let qe : Int := bexp - 1075
    let n := num * 2 ^ (-qe).toNat
    let d := den * 2 ^ qe.toNat
    let q := n / d
    let r := n % d
    let m := if d < 2 * r ∨ (2 * r = d ∧ q % 2 = 1) then q + 1 else q
    min ((bexp.toNat - 1) * 2 ^ 52 + m) (2047 * 2 ^ 52)

/-- Significand as an integer: the value is `sig * 2 ^ (sexp - 1075)`. -/
def sig (x : F64) : Nat := if x.expo = 0 then x.mant else 2 ^ 52 + x.mant

/-- Effective biased exponent (subnormals use 1). -/
def sexp (x : F64) : Nat := if x.expo = 0 then 1 else x.expo

/-- Go `float64(i)` for an integer `i`. -/
def ofInt (i : Int) : F64 := ofMag (decide (i < 0)) (roundMag i.natAbs 1)

/-- Go `a / b` on float64: division by zero yields an infinity, `0 / 0` and
`inf / inf` yield NaN; nothing panics. -/
def div (a b : F64) : F64 :=
  if a.isNaN || b.isNaN then nan
  else
    let s := a.sign != b.sign
    if a.isInf then (if b.isInf then nan else inf s)
    else if b.isInf then ⟨s, 0, 0⟩
    else if b.mag = 0 then (if a.mag = 0 then nan else inf s)
    else ofMag s (roundMag (a.sig * 2 ^ a.sexp) (b.sig * 2 ^ b.sexp))

/-- Go `a + b` on float64. -/
def add (a b : F64) : F64 :=
  if a.isNaN || b.isNaN then nan
  else if a.isInf then (if b.isInf && (a.sign != b.sign) then nan else a)
  else if b.isInf then b
  else
    let va : Int := (if a.sign then -1 else 1) * ((a.sig * 2 ^ a.sexp : Nat) : Int)
    let vb : Int := (if b.sign then -1 else 1) * ((b.sig * 2 ^ b.sexp : Nat) : Int)
    let v := va + vb
    if v = 0 then ⟨a.sign && b.sign, 0, 0⟩
    else ofMag (decide (v < 0)) (roundMag v.natAbs (2 ^ 1075))

end F64

/-! ## Data model -/

/-- Go `time.Duration.Seconds`: `float64(d / Second) + float64(d % Second) / 1e9`
with truncating integer division; `d` is in nanoseconds. -/
def seconds (d : Int) : F64 :=
  let sec := d.tdiv 1000000000
  let nsec := d.tmod 1000000000
  F64.add (F64.ofInt sec) (F64.div (F64.ofInt nsec) (F64.ofInt 1000000000))

/-- The `CompressionResult` struct; `Duration` is a `time.Duration` in
nanoseconds. -/
structure CompressionResult where
  Algorithm : String
  CompressedSizeMB : F64
  Duration : Int
  CompressionRatio : F64
  CompressionSpeed : F64
deriving DecidableEq, Repr

/-- Go's zero value `CompressionResult{}`. -/
def CompressionResult.zeroValue : CompressionResult :=
  { Algorithm := "", CompressedSizeMB := F64.zero, Duration := 0,
    CompressionRatio := F64.zero, CompressionSpeed := F64.zero }

/-- Function `bytesToMB`: `float64(bytes) / (1024 * 1024)`. -/
def bytesToMB (bytes : Int) : F64 :=
  F64.div (F64.ofInt bytes) (F64.ofInt (1024 * 1024))

/-! ## Codec adapters -/

/-- What an adapter observes of one encoder invocation: whether creating the
encoder, writing the data and closing reported an error, the length of the
output buffer afterwards (`buf.Len()`), and `time.Since(start)`.  The encoder
libraries are not part of `main.go`; what their calls do internally (also on a
writer whose constructor reported an error) is theirs, and a run records only
the outcome the adapter can observe once the calls have returned. -/
structure CodecRun where
  createErr : Bool
  writeErr : Bool
  closeErr : Bool
  bufLen : Nat
  elapsed : Int
deriving DecidableEq, Repr

/-- No call on the encoder reported an error. -/
def CodecRun.succeeded (run : CodecRun) : Bool :=
  !run.createErr && !run.writeErr && !run.closeErr

/-- A third-party encoder applied to the input bytes. -/
abbrev Codec := List UInt8 → CodecRun

/-- Adapter `compressZip`: each of `Create`, `Write` and `Close` is checked and an
error returns `CompressionResult{}`.  It builds an `archive/zip` container and
labels the result "ZIP"; the source comment above it still names `compressRAR`. -/
def compressZip (codec : Codec) (data : List UInt8) (originalSize : Int) :
    CompressionResult :=
  let run := codec data
  if run.createErr then CompressionResult.zeroValue
  else if run.writeErr then CompressionResult.zeroValue
  else if run.closeErr then CompressionResult.zeroValue
  else
    let duration := run.elapsed
    let compressedSize : Int := run.bufLen
    let compressionRatio := F64.div (F64.ofInt originalSize) (F64.ofInt compressedSize)
    let compressionSpeed := F64.div (F64.ofInt originalSize) (seconds duration)
    { Algorithm := "ZIP"
      CompressedSizeMB := bytesToMB compressedSize
      CompressionRatio := compressionRatio
      CompressionSpeed := compressionSpeed
      Duration := duration }

/-- Adapter `compressGzip`: the results of `Write` and `Close` are discarded. -/
def compressGzip (codec : Codec) (data : List UInt8) (originalSize : Int) :
    CompressionResult :=
  let run := codec data
  let duration := run.elapsed
  let compressedSize : Int := run.bufLen
  { Algorithm := "gzip"
    CompressedSizeMB := bytesToMB compressedSize
    Duration := duration
    CompressionRatio := F64.div (F64.ofInt originalSize) (F64.ofInt compressedSize)
    CompressionSpeed := F64.div (F64.ofInt originalSize) (seconds duration) }

/-- Adapter `compressZlib`: the results of `Write` and `Close` are discarded. -/
def compressZlib (codec : Codec) (data : List UInt8) (originalSize : Int) :
    CompressionResult :=
  let run := codec data
  let duration := run.elapsed
  let compressedSize : Int := run.bufLen
  { Algorithm := "zlib"
    CompressedSizeMB := bytesToMB compressedSize
    Duration := duration
    CompressionRatio := F64.div (F64.ofInt originalSize) (F64.ofInt compressedSize)
    CompressionSpeed := F64.div (F64.ofInt originalSize) (seconds duration) }

/-- Adapter `compressBzip2`: the constructor's error is bound to `_`; the results of
`Write` and `Close` are discarded. -/
def compressBzip2 (codec : Codec) (data : List UInt8) (originalSize : Int) :
    CompressionResult :=
  let run := codec data
  let duration := run.elapsed
  let compressedSize : Int := run.bufLen
  { Algorithm := "bzip2"
    CompressedSizeMB := bytesToMB compressedSize
    Duration := duration
    CompressionRatio := F64.div (F64.ofInt originalSize) (F64.ofInt compressedSize)
    CompressionSpeed := F64.div (F64.ofInt originalSize) (seconds duration) }

/-- Adapter `compressLzw`: the results of `Write` and `Close` are discarded. -/
def compressLzw (codec : Codec) (data : List UInt8) (originalSize : Int) :
    CompressionResult :=
  let run := codec data
  let duration := run.elapsed
  let compressedSize : Int := run.bufLen
  { Algorithm := "lzw"
    CompressedSizeMB := bytesToMB compressedSize
    Duration := duration
    CompressionRatio := F64.div (F64.ofInt originalSize) (F64.ofInt compressedSize)
    CompressionSpeed := F64.div (F64.ofInt originalSize) (seconds duration) }

/-- Adapter `compressLzma` (it calls `xz.NewWriter`): the constructor's error is bound
to `_`; the results of `Write` and `Close` are discarded. -/
def compressLzma (codec : Codec) (data : List UInt8) (originalSize : Int) :
    CompressionResult :=
  let run := codec data
  let duration := run.elapsed
  let compressedSize : Int := run.bufLen
  { Algorithm := "lzma"
    CompressedSizeMB := bytesToMB compressedSize
    Duration := duration
    CompressionRatio := F64.div (F64.ofInt originalSize) (F64.ofInt compressedSize)
    CompressionSpeed := F64.div (F64.ofInt originalSize) (seconds duration) }

/-- Adapter `compressXZ`: the constructor's error is bound to `_`; the results of
`Write` and `Close` are discarded. -/
def compressXZ (codec : Codec) (data : List UInt8) (originalSize : Int) :
    CompressionResult :=
  let run := codec data
  let duration := run.elapsed
  let compressedSize : Int := run.bufLen
  { Algorithm := "xz"
    CompressedSizeMB := bytesToMB compressedSize
    Duration := duration
    CompressionRatio := F64.div (F64.ofInt originalSize) (F64.ofInt compressedSize)
    CompressionSpeed := F64.div (F64.ofInt originalSize) (seconds duration) }

/-- Adapter `compressBrotli`: the results of `Write` and `Close` are discarded. -/
def compressBrotli (codec : Codec) (data : List UInt8) (originalSize : Int) :
    CompressionResult :=
  let run := codec data
  let duration := run.elapsed
  let compressedSize : Int := run.bufLen
  { Algorithm := "brotli"
    CompressedSizeMB := bytesToMB compressedSize
    Duration := duration
    CompressionRatio := F64.div (F64.ofInt originalSize) (F64.ofInt compressedSize)
    CompressionSpeed := F64.div (F64.ofInt originalSize) (seconds duration) }

/-- Adapter `compressLz4`: the results of `Write` and `Close` are discarded. -/
def compressLz4 (codec : Codec) (data : List UInt8) (originalSize : Int) :
    CompressionResult :=
  let run := codec data
  let duration := run.elapsed
  let compressedSize : Int := run.bufLen
  { Algorithm := "lz4"
    CompressedSizeMB := bytesToMB compressedSize
    Duration := duration
    CompressionRatio := F64.div (F64.ofInt originalSize) (F64.ofInt compressedSize)
    CompressionSpeed := F64.div (F64.ofInt originalSize) (seconds duration) }

/-- Adapter `compressZstd`: the constructor's error is bound to `_`; the results of
`Write` and `Close` are discarded. -/
def compressZstd (codec : Codec) (data : List UInt8) (originalSize : Int) :
    CompressionResult :=
  let run := codec data
  let duration := run.elapsed
  let compressedSize : Int := run.bufLen
  { Algorithm := "zstd"
    CompressedSizeMB := bytesToMB compressedSize
    Duration := duration
    CompressionRatio := F64.div (F64.ofInt originalSize) (F64.ofInt compressedSize)
    CompressionSpeed := F64.div (F64.ofInt originalSize) (seconds duration) }

/-- The `compressionFuncs` slice of `main`, in source order. -/
def compressionFuncs : List (Codec → List UInt8 → Int → CompressionResult) :=
  [compressGzip, compressZlib, compressBzip2, compressLzw, compressLzma,
   compressXZ, compressBrotli, compressLz4, compressZstd, compressZip]

/-! ## Selection loop of `main` -/

/-- The three loop variables `bestTimeResult`, `bestSizeResult`, `firstResult`. -/
structure Selection where
  bestTimeResult : CompressionResult
  bestSizeResult : CompressionResult
  firstResult : Bool
deriving DecidableEq, Repr

/-- State before the loop: both winners are the zero value, `firstResult` is
true. -/
def Selection.init : Selection :=
  ⟨CompressionResult.zeroValue, CompressionResult.zeroValue, true⟩

/-- One iteration of `for result := range results` (console output omitted). -/
def selectStep (s : Selection) (result : CompressionResult) : Selection :=
  let bestTimeResult :=
    if s.firstResult || decide (result.Duration < s.bestTimeResult.Duration)
    then result else s.bestTimeResult
  let bestSizeResult :=
    if s.firstResult || F64.gt result.CompressionRatio s.bestSizeResult.CompressionRatio
    then result else s.bestSizeResult
  ⟨bestTimeResult, bestSizeResult, false⟩

/-- The whole loop over the results drained from the channel, in arrival
order. -/
def selectBest (results : List CompressionResult) : Selection :=
  results.foldl selectStep Selection.init

/-! ## Report writer -/

/-- A value passed to `SetCellValue`. -/
inductive CellValue where
  | str (s : String)
  | num (x : F64)
deriving DecidableEq, Repr

/-- One `f.SetCellValue(sheetName, cell, value)` call on the sheet
"Compression Results". -/
structure CellWrite where
  cell : String
  value : CellValue
deriving DecidableEq, Repr

/-- The `headers` slice of `writeResultsToXLSX`. -/
def headers : List String :=
  ["Algorithm", "Original Size (MB)", "Compressed Size (MB)", "Compression Ratio",
   "Compression Speed (B/s)", "Time Taken (seconds)"]

/-- The library call `excelize.CoordinatesToCellName(col, row)` for the
single-letter columns 1..26 ("A".."Z"). -/
def coordinatesToCellName (col row : Nat) : String :=
  String.singleton (Char.ofNat (64 + col)) ++ toString row

/-- The header loop `for col, header := range headers`, from index `col`. -/
def writeHeaders : Nat → List String → List CellWrite
  | _, [] => []
  | col, header :: rest =>
    ⟨coordinatesToCellName (col + 1) 1, CellValue.str header⟩ :: writeHeaders (col + 1) rest

/-- The data loop `for i, result := range results`, from index `i`. -/
def writeRows : Nat → List CompressionResult → List CellWrite
  | _, [] => []
  | i, result :: rest =>
    [ ⟨"A" ++ toString (i + 2), CellValue.str result.Algorithm⟩,
      ⟨"C" ++ toString (i + 2), CellValue.num result.CompressedSizeMB⟩,
      ⟨"D" ++ toString (i + 2), CellValue.num result.CompressionRatio⟩,
      ⟨"E" ++ toString (i + 2), CellValue.num result.CompressionSpeed⟩,
      ⟨"F" ++ toString (i + 2), CellValue.num (seconds result.Duration)⟩ ]
      ++ writeRows (i + 1) rest

/-- Function `writeResultsToXLSX`: the `SetCellValue` calls it makes, in order (saving
the file is the library's business). -/
def writeResultsToXLSX (results : List CompressionResult) : List CellWrite :=
  writeHeaders 0 headers ++ writeRows 0 results

/-- The slice `[]CompressionResult{bestTimeResult, bestSizeResult}` that `main`
passes to `writeResultsToXLSX` once the channel is drained. -/
def reportRows (results : List CompressionResult) : List CompressionResult :=
  [(selectBest results).bestTimeResult, (selectBest results).bestSizeResult]

/-- The tail of `main` after the channel is closed: select, then write. -/
def mainReport (results : List CompressionResult) : List CellWrite :=
  writeResultsToXLSX (reportRows results)

/-! ## Sample codec runs used in the concrete evaluations -/

/-- An encoder that reports no error, leaves `n` bytes in the buffer and takes
`t` nanoseconds. -/
def okCodec (n : Nat) (t : Int) : Codec := fun _ => ⟨false, false, false, n, t⟩

/-- An encoder whose creation reports an error. -/
def createFailCodec : Codec := fun _ => ⟨true, false, false, 0, 0⟩

/-- The zstd encoder on a 0-byte input: `Close` with nothing written emits no
frame, so the output buffer stays empty (no error is reported). -/
def zstdEmptyRun : Codec := fun _ => ⟨false, false, false, 0, 1000⟩

/-! ## Helper definitions for the proofs -/

/-- Keep the current candidate unless the new element is strictly better. -/
def pick {α : Type} (better : α → α → Bool) (cur : α) (xs : List α) : α :=
  xs.foldl (fun c x => if better x c then x else c) cur

/-- Comparison used for `bestTimeResult` after the first iteration. -/
def fasterThan (x c : CompressionResult) : Bool := decide (x.Duration < c.Duration)

/-- Comparison used for `bestSizeResult` after the first iteration. -/
def denserThan (x c : CompressionResult) : Bool :=
  F64.gt x.CompressionRatio c.CompressionRatio

/-! ## Sample inputs -/

/-- A 100-byte input (all zero bytes). -/
def input100 : List UInt8 := List.replicate 100 0

/-- Three successful runs on a 100-byte input; the second and third tie on
`Duration`. -/
def sampleResults : List CompressionResult :=
  [compressGzip (okCodec 50 3000) input100 100, compressZlib (okCodec 40 1000) input100 100,
   compressLz4 (okCodec 80 1000) input100 100]

/-- Two runs on a 0-byte input: zstd leaves an empty buffer (ratio `0 / 0`),
gzip leaves 23 bytes (ratio `0 / 23`). -/
def emptyInputResults : List CompressionResult :=
  [compressZstd (okCodec 0 1000) [] 0, compressGzip (okCodec 23 2000) [] 0]

/-- One failed ZIP run (flagged zero value) followed by one successful gzip
run on the same 100-byte input. -/
def flaggedThenGzip : List CompressionResult :=
  [compressZip createFailCodec input100 100, compressGzip (okCodec 50 1000) input100 100]

/-- Two successful runs with the same `Duration` and the same ratio. -/
def tiedResults : List CompressionResult :=
  [compressGzip (okCodec 50 1000) input100 100, compressZlib (okCodec 50 1000) input100 100]

/-- Four successful runs on a 100-byte input.  The lzma and xz adapters make
the same `xz.NewWriter` call, so they leave the same number of bytes and here
also take the same time; the fastest and the densest result (zlib) is alone
at its optimum. -/
def tiedElsewhereResults : List CompressionResult :=
  [compressGzip (okCodec 50 3000) input100 100, compressZlib (okCodec 40 1000) input100 100,
   compressLzma (okCodec 68 5000) input100 100, compressXZ (okCodec 68 5000) input100 100]

/-- The `Algorithm` literal of each adapter, in the order of
`compressionFuncs`. -/
def algorithmLabels : List String :=
  ["gzip", "zlib", "bzip2", "lzw", "lzma", "xz", "brotli", "lz4", "zstd", "ZIP"]

/-! ## Helper lemmas: the loop as two independent reductions -/

theorem foldl_selectStep_false (rs : List CompressionResult) (bt bs : CompressionResult) :
    rs.foldl selectStep ⟨bt, bs, false⟩ = ⟨pick fasterThan bt rs, pick denserThan bs rs, false⟩ := by
  induction rs generalizing bt bs with
  | nil => rfl
  | cons r rs ih =>
    simp only [List.foldl_cons, pick]
    have hstep : selectStep ⟨bt, bs, false⟩ r =
        ⟨if fasterThan r bt then r else bt, if denserThan r bs then r else bs, false⟩ := by
      simp [selectStep, fasterThan, denserThan]
    rw [hstep, ih]
    simp [pick]

theorem selectBest_nil : selectBest [] = Selection.init := rfl

theorem selectBest_cons (r : CompressionResult) (rs : List CompressionResult) :
    selectBest (r :: rs) = ⟨pick fasterThan r rs, pick denserThan r rs, false⟩ := by
  have hstep : selectStep Selection.init r = ⟨r, r, false⟩ := by
    simp [selectStep, Selection.init]
  simp only [selectBest, List.foldl_cons]
  rw [hstep, foldl_selectStep_false]

/-- The reduction returns the first element whose key is minimal: everything
before it has a strictly larger key, everything after it a key at least as
large.  `P` is an invariant of the elements on which `better` agrees with the
strict order of the keys. -/
theorem pick_split {α : Type} (better : α → α → Bool) (k : α → Int) (P : α → Prop)
    (hb : ∀ x c, P x → P c → (better x c = true ↔ k x < k c))
    (xs : List α) (cur : α) (hcur : P cur) (hxs : ∀ x ∈ xs, P x) :
    ∃ pre post, cur :: xs = pre ++ pick better cur xs :: post ∧
      (∀ y ∈ pre, k (pick better cur xs) < k y) ∧
      (∀ y ∈ post, k (pick better cur xs) ≤ k y) := by
  induction xs using List.reverseRecOn with
  | nil => exact ⟨[], [], rfl, by simp, by simp⟩
  | append_singleton xs x ih =>
    have hxs1 : ∀ y ∈ xs, P y := fun y hy => hxs y (by simp [hy])
    have hx : P x := hxs x (by simp)
    obtain ⟨pre, post, hsplit, hpre, hpost⟩ := ih hxs1
    have hbest : P (pick better cur xs) := by
      have hmem : pick better cur xs ∈ cur :: xs := by rw [hsplit]; simp
      rcases List.mem_cons.1 hmem with h | h
      · rw [h]; exact hcur
      · exact hxs1 _ h
    have hunfold : pick better cur (xs ++ [x]) =
        if better x (pick better cur xs) then x else pick better cur xs := by
      simp [pick, List.foldl_append]
    rw [hunfold]
    by_cases hlt : better x (pick better cur xs) = true
    · rw [if_pos hlt]
      have hk := (hb x _ hx hbest).1 hlt
      refine ⟨cur :: xs, [], by simp, ?_, by simp⟩
      intro y hy
      rw [hsplit] at hy
      rcases List.mem_append.1 hy with h | h
      · exact lt_trans hk (hpre y h)
      · rcases List.mem_cons.1 h with h | h
        · rw [h]; exact hk
        · exact lt_of_lt_of_le hk (hpost y h)
    · rw [if_neg hlt]
      have hk : ¬ k x < k (pick better cur xs) := fun h => hlt ((hb x _ hx hbest).2 h)
      refine ⟨pre, post ++ [x], ?_, hpre, ?_⟩
      · rw [← List.cons_append, hsplit]; simp
      · intro y hy
        rcases List.mem_append.1 hy with h | h
        · exact hpost y h
        · have hyx : y = x := by simpa using h
          rw [hyx]; exact not_lt.1 hk

theorem fasterThan_iff (x c : CompressionResult) :
    fasterThan x c = true ↔ x.Duration < c.Duration := by
  simp [fasterThan]

theorem denserThan_iff (x c : CompressionResult)
    (hx : x.CompressionRatio.isNaN = false) (hc : c.CompressionRatio.isNaN = false) :
    denserThan x c = true ↔ -x.CompressionRatio.key < -c.CompressionRatio.key := by
  simp [denserThan, F64.gt, F64.lt, hx, hc]

/-- Membership form of `pick_split`. -/
theorem pick_mem_min {α : Type} (better : α → α → Bool) (k : α → Int) (P : α → Prop)
    (hb : ∀ x c, P x → P c → (better x c = true ↔ k x < k c))
    (xs : List α) (cur : α) (hcur : P cur) (hxs : ∀ x ∈ xs, P x) :
    pick better cur xs ∈ cur :: xs ∧ ∀ y ∈ cur :: xs, k (pick better cur xs) ≤ k y := by
  obtain ⟨pre, post, hsplit, hpre, hpost⟩ := pick_split better k P hb xs cur hcur hxs
  refine ⟨by rw [hsplit]; simp, ?_⟩
  intro y hy
  rw [hsplit] at hy
  rcases List.mem_append.1 hy with h | h
  · exact le_of_lt (hpre y h)
  · rcases List.mem_cons.1 h with h | h
    · rw [h]
    · exact hpost y h

/-! ## Sanity checks of the float64 model against known bit patterns -/

/-- Known values: `1/3 = 0x3FD5555555555555`, `1/10 = 0x3FB999999999999A`,
`float64(2^53 + 1) = 2^53` (tie to even), `1.5 s = 0x3FF8000000000000`,
`5/0 = +Inf`, `-5/0 = -Inf`, `0/0` is NaN. -/
theorem float64_samples :
    F64.div (F64.ofInt 1) (F64.ofInt 3) = ⟨false, 1021, 0x5555555555555⟩ ∧
    F64.div (F64.ofInt 1) (F64.ofInt 10) = ⟨false, 1019, 0x999999999999a⟩ ∧
    F64.ofInt 9007199254740993 = ⟨false, 1076, 0⟩ ∧
    seconds 1500000000 = ⟨false, 1023, 0x8000000000000⟩ ∧
    F64.div (F64.ofInt 5) (F64.ofInt 0) = F64.inf false ∧
    F64.div (F64.ofInt (-5)) (F64.ofInt 0) = F64.inf true ∧
    (F64.div (F64.ofInt 0) (F64.ofInt 0)).isNaN = true := by
  decide

/-! ## C1: best-by-time -/

/-- C1. For every non-empty sequence of drained results, `bestTimeResult` after
the loop is an element of the sequence, its `Duration` is at most the
`Duration` of every element, and no element before it in iteration order has
the same `Duration`. -/
theorem bestTime_is_first_minimum (rs : List CompressionResult) (hne : rs ≠ []) :
    ∃ pre post, rs = pre ++ (selectBest rs).bestTimeResult :: post ∧
      (∀ r ∈ rs, (selectBest rs).bestTimeResult.Duration ≤ r.Duration) ∧
      (∀ y ∈ pre, y.Duration ≠ (selectBest rs).bestTimeResult.Duration) := by
  cases rs with
  | nil => exact absurd rfl hne
  | cons r rs =>
    rw [selectBest_cons]
    obtain ⟨pre, post, hsplit, hpre, hpost⟩ :=
      pick_split fasterThan (fun c => c.Duration) (fun _ => True)
        (fun x c _ _ => fasterThan_iff x c) rs r trivial (fun _ _ => trivial)
    refine ⟨pre, post, hsplit, ?_, ?_⟩
    · intro y hy
      rw [hsplit] at hy
      rcases List.mem_append.1 hy with h | h
      · exact le_of_lt (hpre y h)
      · rcases List.mem_cons.1 h with h | h
        · rw [h]
        · exact hpost y h
    · intro y hy
      exact ne_of_gt (hpre y hy)

/-- Instance of C1 on three successful runs, two of which tie on `Duration`. -/
theorem bestTime_is_first_minimum_witness :
    sampleResults ≠ [] ∧
    ∃ pre post, sampleResults = pre ++ (selectBest sampleResults).bestTimeResult :: post ∧
      (∀ r ∈ sampleResults, (selectBest sampleResults).bestTimeResult.Duration ≤ r.Duration) ∧
      (∀ y ∈ pre, y.Duration ≠ (selectBest sampleResults).bestTimeResult.Duration) :=
  ⟨by decide, bestTime_is_first_minimum sampleResults (by decide)⟩

/-! ## C2: best-by-ratio -/

/-- C2, as stated, fails: on a 0-byte input the first drained result can carry
the ratio `0 / 0 = NaN`; it stays `bestSizeResult` (nothing compares greater
than NaN) although NaN is not `>=` the ratio of any element. -/
theorem bestRatio_nan_counterexample :
    ¬ (∃ pre post,
        emptyInputResults = pre ++ (selectBest emptyInputResults).bestSizeResult :: post ∧
        (∀ r ∈ emptyInputResults,
          F64.ge (selectBest emptyInputResults).bestSizeResult.CompressionRatio
            r.CompressionRatio = true) ∧
        (∀ y ∈ pre, F64.eq y.CompressionRatio
          (selectBest emptyInputResults).bestSizeResult.CompressionRatio = false)) := by
  rintro ⟨_, _, _, hge, _⟩
  exact absurd hge (by decide)

/-- C2 (amended). For every non-empty sequence of drained results none of whose
`CompressionRatio` is NaN, `bestSizeResult` after the loop is an element of the
sequence, its ratio is `>=` the ratio of every element, and no element before
it in iteration order has an equal ratio. -/
theorem bestRatio_is_first_maximum (rs : List CompressionResult) (hne : rs ≠ [])
    (hnan : ∀ r ∈ rs, r.CompressionRatio.isNaN = false) :
    ∃ pre post, rs = pre ++ (selectBest rs).bestSizeResult :: post ∧
      (∀ r ∈ rs, F64.ge (selectBest rs).bestSizeResult.CompressionRatio
        r.CompressionRatio = true) ∧
      (∀ y ∈ pre, F64.eq y.CompressionRatio
        (selectBest rs).bestSizeResult.CompressionRatio = false) := by
  cases rs with
  | nil => exact absurd rfl hne
  | cons r rs =>
    rw [selectBest_cons]
    have hr : r.CompressionRatio.isNaN = false := hnan r (by simp)
    have hrs : ∀ x ∈ rs, x.CompressionRatio.isNaN = false :=
      fun x hx => hnan x (by simp [hx])
    obtain ⟨pre, post, hsplit, hpre, hpost⟩ :=
      pick_split denserThan (fun c => -c.CompressionRatio.key)
        (fun c => c.CompressionRatio.isNaN = false)
        (fun x c hx hc => denserThan_iff x c hx hc) rs r hr hrs
    have hbest : (pick denserThan r rs).CompressionRatio.isNaN = false :=
      hnan _ (by rw [hsplit]; simp)
    refine ⟨pre, post, hsplit, ?_, ?_⟩
    · intro y hy
      have hyn := hnan y hy
      have hle : -(pick denserThan r rs).CompressionRatio.key ≤ -y.CompressionRatio.key := by
        rw [hsplit] at hy
        rcases List.mem_append.1 hy with h | h
        · exact le_of_lt (hpre y h)
        · rcases List.mem_cons.1 h with h | h
          · rw [h]
          · exact hpost y h
      simp only [F64.ge, F64.le, hyn, hbest, Bool.not_false, Bool.true_and,
        decide_eq_true_eq]
      exact neg_le_neg_iff.1 hle
    · intro y hy
      have hlt := neg_lt_neg_iff.1 (hpre y hy)
      simp only [F64.eq, Bool.and_eq_false_iff, decide_eq_false_iff_not]
      exact Or.inr (ne_of_lt hlt)

/-- Instance of C2 (amended) on three successful runs without NaN ratios. -/
theorem bestRatio_is_first_maximum_witness :
    sampleResults ≠ [] ∧ (∀ r ∈ sampleResults, r.CompressionRatio.isNaN = false) ∧
    ∃ pre post, sampleResults = pre ++ (selectBest sampleResults).bestSizeResult :: post ∧
      (∀ r ∈ sampleResults, F64.ge (selectBest sampleResults).bestSizeResult.CompressionRatio
        r.CompressionRatio = true) ∧
      (∀ y ∈ pre, F64.eq y.CompressionRatio
        (selectBest sampleResults).bestSizeResult.CompressionRatio = false) :=
  ⟨by decide, by decide, bestRatio_is_first_maximum sampleResults (by decide) (by decide)⟩

/-! ## C3: flagged results in the selection -/

theorem pick_cons {α : Type} (better : α → α → Bool) (cur x : α) (xs : List α) :
    pick better cur (x :: xs) = pick better (if better x cur then x else cur) xs := rfl

theorem denserThan_true (x c : CompressionResult) (h : denserThan x c = true) :
    x.CompressionRatio.isNaN = false ∧ c.CompressionRatio.isNaN = false ∧
      c.CompressionRatio.key < x.CompressionRatio.key := by
  simpa [denserThan, F64.gt, F64.lt, and_assoc, and_left_comm] using h

/-- A candidate that is NaN or has key at least `t` stays so through the loop. -/
theorem pick_denser_inv (t : Int) (xs : List CompressionResult) :
    ∀ cur : CompressionResult,
      (cur.CompressionRatio.isNaN = true ∨ t ≤ cur.CompressionRatio.key) →
      ((pick denserThan cur xs).CompressionRatio.isNaN = true ∨
        t ≤ (pick denserThan cur xs).CompressionRatio.key) := by
  induction xs with
  | nil => intro cur h; exact h
  | cons x xs ih =>
    intro cur h
    rw [pick_cons]
    apply ih
    by_cases hd : denserThan x cur = true
    · rw [if_pos hd]
      obtain ⟨_, hc, hlt⟩ := denserThan_true x cur hd
      rcases h with h | h
      · rw [hc] at h; exact absurd h (by decide)
      · exact Or.inr (le_of_lt (lt_of_le_of_lt h hlt))
    · rw [if_neg hd]; exact h

/-- The ratio winner is NaN or at least as large as every non-NaN element. -/
theorem pick_denser_ge (xs : List CompressionResult) :
    ∀ (cur r : CompressionResult), r ∈ cur :: xs → r.CompressionRatio.isNaN = false →
      ((pick denserThan cur xs).CompressionRatio.isNaN = true ∨
        r.CompressionRatio.key ≤ (pick denserThan cur xs).CompressionRatio.key) := by
  induction xs with
  | nil =>
    intro cur r hr _
    have hrc : r = cur := by simpa using hr
    rw [hrc]; exact Or.inr (le_refl _)
  | cons x xs ih =>
    intro cur r hr hrn
    rw [pick_cons]
    have hnot : ∀ a b : CompressionResult, a.CompressionRatio.isNaN = false →
        ¬ denserThan a b = true →
        (b.CompressionRatio.isNaN = true ∨ a.CompressionRatio.key ≤ b.CompressionRatio.key) := by
      intro a b ha hd
      by_cases hb : b.CompressionRatio.isNaN = true
      · exact Or.inl hb
      · have hb0 : b.CompressionRatio.isNaN = false := by simpa using hb
        have := (denserThan_iff a b ha hb0).not.1 hd
        exact Or.inr (by linarith)
    rcases List.mem_cons.1 hr with h | h
    · -- `r` is the current candidate
      apply pick_denser_inv
      by_cases hd : denserThan x cur = true
      · rw [if_pos hd]
        obtain ⟨_, _, hlt⟩ := denserThan_true x cur hd
        rw [h]; exact Or.inr (le_of_lt hlt)
      · rw [if_neg hd, h]; exact Or.inr (le_refl _)
    · rcases List.mem_cons.1 h with h | h
      · -- `r` is the element examined now
        apply pick_denser_inv
        by_cases hd : denserThan x cur = true
        · rw [if_pos hd, h]; exact Or.inr (le_refl _)
        · rw [if_neg hd, h]
          exact hnot x cur (h ▸ hrn) hd
      · exact ih _ r (List.mem_cons_of_mem _ h) hrn

/-- C3, as stated, fails: with one flagged and one non-flagged result the
flagged result (Duration 0) is selected as `bestTimeResult`. -/
theorem flagged_wins_time_counterexample :
    ¬ ((∃ r ∈ flaggedThenGzip, r ≠ CompressionResult.zeroValue) →
       (∃ r ∈ flaggedThenGzip, r = CompressionResult.zeroValue) →
       (selectBest flaggedThenGzip).bestTimeResult ≠ CompressionResult.zeroValue ∧
       (selectBest flaggedThenGzip).bestSizeResult ≠ CompressionResult.zeroValue) := by
  decide

/-- C3 (amended). For every sequence that contains a flagged (zero-value)
result: if some result has a `CompressionRatio` greater than 0, then
`bestSizeResult` is not flagged; and if every non-flagged result has a
positive `Duration`, then `bestTimeResult` is the flagged result (the loop
does not exclude flagged results). -/
theorem flagged_selection (rs : List CompressionResult)
    (hflag : CompressionResult.zeroValue ∈ rs) :
    ((∃ r ∈ rs, F64.gt r.CompressionRatio F64.zero = true) →
      (selectBest rs).bestSizeResult ≠ CompressionResult.zeroValue) ∧
    ((∀ r ∈ rs, r ≠ CompressionResult.zeroValue → 0 < r.Duration) →
      (selectBest rs).bestTimeResult = CompressionResult.zeroValue) := by
  cases rs with
  | nil => simp at hflag
  | cons c xs =>
    rw [selectBest_cons]
    constructor
    · rintro ⟨r, hr, hgt⟩
      have hr2 : r.CompressionRatio.isNaN = false ∧ (0 : Int) < r.CompressionRatio.key := by
        have hlt : F64.lt F64.zero r.CompressionRatio = true := hgt
        simp only [F64.lt, Bool.and_eq_true, Bool.not_eq_true', decide_eq_true_eq] at hlt
        have hz : F64.zero.key = 0 := by decide
        rw [hz] at hlt
        exact ⟨hlt.1.2, hlt.2⟩
      intro hzero
      change pick denserThan c xs = CompressionResult.zeroValue at hzero
      rcases pick_denser_ge xs c r hr hr2.1 with h | h
      · rw [hzero] at h; exact absurd h (by decide)
      · rw [hzero] at h
        have h0 : CompressionResult.zeroValue.CompressionRatio.key = 0 := by decide
        rw [h0] at h
        exact absurd hr2.2 (not_lt.2 h)
    · intro hpos
      obtain ⟨hmem, hmin⟩ := pick_mem_min fasterThan (fun c => c.Duration) (fun _ => True)
        (fun x c _ _ => fasterThan_iff x c) xs c trivial (fun _ _ => trivial)
      by_contra hne
      have h1 := hpos _ hmem hne
      have h2 := hmin _ hflag
      have h0 : CompressionResult.zeroValue.Duration = 0 := rfl
      simp only [h0] at h2
      exact absurd h1 (not_lt.2 h2)

/-- Instance of C3 (amended): a failed ZIP run followed by a successful gzip run. -/
theorem flagged_selection_witness :
    CompressionResult.zeroValue ∈ flaggedThenGzip ∧
    (∃ r ∈ flaggedThenGzip, F64.gt r.CompressionRatio F64.zero = true) ∧
    (∀ r ∈ flaggedThenGzip, r ≠ CompressionResult.zeroValue → 0 < r.Duration) ∧
    (selectBest flaggedThenGzip).bestSizeResult ≠ CompressionResult.zeroValue ∧
    (selectBest flaggedThenGzip).bestTimeResult = CompressionResult.zeroValue :=
  ⟨by decide, by decide, by decide,
   (flagged_selection flaggedThenGzip (by decide)).1 (by decide),
   (flagged_selection flaggedThenGzip (by decide)).2 (by decide)⟩

/-! ## C6: reordering the drained sequence -/

/-- The key of the winner is the same for two arrangements of one collection. -/
theorem pick_key_perm {α : Type} (better : α → α → Bool) (k : α → Int) (P : α → Prop)
    (hb : ∀ x c, P x → P c → (better x c = true ↔ k x < k c))
    (c1 c2 : α) (xs1 xs2 : List α) (hp : (c1 :: xs1).Perm (c2 :: xs2))
    (hP : ∀ x ∈ c1 :: xs1, P x) :
    k (pick better c1 xs1) = k (pick better c2 xs2) := by
  have hP2 : ∀ x ∈ c2 :: xs2, P x := fun x hx => hP x (hp.mem_iff.2 hx)
  obtain ⟨hm1, hmin1⟩ := pick_mem_min better k P hb xs1 c1 (hP c1 (by simp))
    (fun x hx => hP x (by simp [hx]))
  obtain ⟨hm2, hmin2⟩ := pick_mem_min better k P hb xs2 c2 (hP2 c2 (by simp))
    (fun x hx => hP2 x (by simp [hx]))
  exact le_antisymm (hmin1 _ (hp.mem_iff.2 hm2)) (hmin2 _ (hp.mem_iff.1 hm1))

/-- C6, as stated, fails: two results that tie are won by whichever arrives
first, so swapping them changes both winners. -/
theorem permutation_changes_winner_counterexample :
    tiedResults.Perm tiedResults.reverse ∧
    ¬ ((selectBest tiedResults).bestTimeResult =
          (selectBest tiedResults.reverse).bestTimeResult ∧
        (selectBest tiedResults).bestSizeResult =
          (selectBest tiedResults.reverse).bestSizeResult) :=
  ⟨(List.reverse_perm tiedResults).symm, by decide⟩

/-- C6 (amended). For every finite sequence of results and every permutation of
it, the two `bestTimeResult`s have the same `Duration`, and they are the same
result when the minimum `Duration` is attained by one result only; when no
`CompressionRatio` is NaN, the two `bestSizeResult`s have equal ratios, and they
are the same result when the maximum ratio is attained by one result only. -/
theorem selection_under_permutation (l1 l2 : List CompressionResult) (hp : l1.Perm l2) :
    (selectBest l1).bestTimeResult.Duration = (selectBest l2).bestTimeResult.Duration ∧
    ((∀ a ∈ l1, ∀ b ∈ l1, (∀ r ∈ l1, a.Duration ≤ r.Duration) →
        (∀ r ∈ l1, b.Duration ≤ r.Duration) → a = b) →
      (selectBest l1).bestTimeResult = (selectBest l2).bestTimeResult) ∧
    ((∀ r ∈ l1, r.CompressionRatio.isNaN = false) →
      F64.eq (selectBest l1).bestSizeResult.CompressionRatio
        (selectBest l2).bestSizeResult.CompressionRatio = true) ∧
    ((∀ r ∈ l1, r.CompressionRatio.isNaN = false) →
      (∀ a ∈ l1, ∀ b ∈ l1,
        (∀ r ∈ l1, F64.ge a.CompressionRatio r.CompressionRatio = true) →
        (∀ r ∈ l1, F64.ge b.CompressionRatio r.CompressionRatio = true) → a = b) →
      (selectBest l1).bestSizeResult = (selectBest l2).bestSizeResult) := by
  cases l1 with
  | nil =>
    have h2 : l2 = [] := List.Perm.eq_nil hp.symm
    subst h2
    exact ⟨rfl, fun _ => rfl, fun _ => by decide, fun _ _ => rfl⟩
  | cons c1 xs1 =>
    cases l2 with
    | nil => exact absurd (List.Perm.eq_nil hp) (by simp)
    | cons c2 xs2 =>
      rw [selectBest_cons, selectBest_cons]
      have htime : (pick fasterThan c1 xs1).Duration = (pick fasterThan c2 xs2).Duration :=
        pick_key_perm fasterThan (fun c => c.Duration) (fun _ => True)
          (fun x c _ _ => fasterThan_iff x c) c1 c2 xs1 xs2 hp (fun _ _ => trivial)
      obtain ⟨hmt1, hmin1⟩ := pick_mem_min fasterThan (fun c => c.Duration) (fun _ => True)
          (fun x c _ _ => fasterThan_iff x c) xs1 c1 trivial (fun _ _ => trivial)
      obtain ⟨hmt2, hmin2⟩ := pick_mem_min fasterThan (fun c => c.Duration) (fun _ => True)
          (fun x c _ _ => fasterThan_iff x c) xs2 c2 trivial (fun _ _ => trivial)
      have hratio : (∀ r ∈ c1 :: xs1, r.CompressionRatio.isNaN = false) →
          (pick denserThan c1 xs1).CompressionRatio.key =
            (pick denserThan c2 xs2).CompressionRatio.key := by
        intro hn
        have := pick_key_perm denserThan (fun c => -c.CompressionRatio.key)
          (fun c => c.CompressionRatio.isNaN = false)
          (fun x c hx hc => denserThan_iff x c hx hc) c1 c2 xs1 xs2 hp hn
        exact neg_inj.1 this
      have hms : (∀ r ∈ c1 :: xs1, r.CompressionRatio.isNaN = false) →
          (pick denserThan c1 xs1 ∈ c1 :: xs1 ∧
            ∀ r ∈ c1 :: xs1,
              r.CompressionRatio.key ≤ (pick denserThan c1 xs1).CompressionRatio.key) ∧
          (pick denserThan c2 xs2 ∈ c1 :: xs1 ∧
            ∀ r ∈ c1 :: xs1,
              r.CompressionRatio.key ≤ (pick denserThan c2 xs2).CompressionRatio.key) := by
        intro hn
        have hn2 : ∀ r ∈ c2 :: xs2, r.CompressionRatio.isNaN = false :=
          fun r hr => hn r (hp.mem_iff.2 hr)
        obtain ⟨h1, hmax1⟩ := pick_mem_min denserThan (fun c => -c.CompressionRatio.key)
          (fun c => c.CompressionRatio.isNaN = false)
          (fun x c hx hc => denserThan_iff x c hx hc) xs1 c1 (hn c1 (by simp))
          (fun x hx => hn x (by simp [hx]))
        obtain ⟨h2, hmax2⟩ := pick_mem_min denserThan (fun c => -c.CompressionRatio.key)
          (fun c => c.CompressionRatio.isNaN = false)
          (fun x c hx hc => denserThan_iff x c hx hc) xs2 c2 (hn2 c2 (by simp))
          (fun x hx => hn2 x (by simp [hx]))
        exact ⟨⟨h1, fun r hr => neg_le_neg_iff.1 (hmax1 r hr)⟩,
          ⟨hp.mem_iff.2 h2, fun r hr => neg_le_neg_iff.1 (hmax2 r (hp.mem_iff.1 hr))⟩⟩
      have heq : (∀ r ∈ c1 :: xs1, r.CompressionRatio.isNaN = false) →
          F64.eq (pick denserThan c1 xs1).CompressionRatio
            (pick denserThan c2 xs2).CompressionRatio = true := by
        intro hn
        obtain ⟨⟨h1, _⟩, ⟨h2, _⟩⟩ := hms hn
        simp only [F64.eq, hn _ h1, hn _ h2, hratio hn, Bool.not_false, Bool.true_and,
          decide_eq_true_eq]
      have hge : (∀ r ∈ c1 :: xs1, r.CompressionRatio.isNaN = false) →
          ∀ w ∈ c1 :: xs1,
            (∀ r ∈ c1 :: xs1, r.CompressionRatio.key ≤ w.CompressionRatio.key) →
            ∀ r ∈ c1 :: xs1, F64.ge w.CompressionRatio r.CompressionRatio = true := by
        intro hn w hw hmax r hr
        simp only [F64.ge, F64.le, hn r hr, hn w hw, Bool.not_false, Bool.true_and,
          decide_eq_true_eq]
        exact hmax r hr
      refine ⟨htime, ?_, heq, ?_⟩
      · intro huniq
        exact huniq _ hmt1 _ (hp.mem_iff.2 hmt2) hmin1
          (fun r hr => hmin2 r (hp.mem_iff.1 hr))
      · intro hn huniq
        obtain ⟨⟨h1, hmax1⟩, ⟨h2, hmax2⟩⟩ := hms hn
        exact huniq _ h1 _ h2 (hge hn _ h1 hmax1) (hge hn _ h2 hmax2)

/-- Instance of C6 (amended): four runs in which lzma and xz tie with each other
but the optimum is attained once, and their reversal. -/
theorem selection_under_permutation_witness :
    tiedElsewhereResults.Perm tiedElsewhereResults.reverse ∧
    (∀ a ∈ tiedElsewhereResults, ∀ b ∈ tiedElsewhereResults,
      (∀ r ∈ tiedElsewhereResults, a.Duration ≤ r.Duration) →
      (∀ r ∈ tiedElsewhereResults, b.Duration ≤ r.Duration) → a = b) ∧
    (∀ r ∈ tiedElsewhereResults, r.CompressionRatio.isNaN = false) ∧
    (∀ a ∈ tiedElsewhereResults, ∀ b ∈ tiedElsewhereResults,
      (∀ r ∈ tiedElsewhereResults, F64.ge a.CompressionRatio r.CompressionRatio = true) →
      (∀ r ∈ tiedElsewhereResults, F64.ge b.CompressionRatio r.CompressionRatio = true) →
      a = b) ∧
    (selectBest tiedElsewhereResults).bestTimeResult.Duration =
      (selectBest tiedElsewhereResults.reverse).bestTimeResult.Duration ∧
    (selectBest tiedElsewhereResults).bestTimeResult =
      (selectBest tiedElsewhereResults.reverse).bestTimeResult ∧
    F64.eq (selectBest tiedElsewhereResults).bestSizeResult.CompressionRatio
      (selectBest tiedElsewhereResults.reverse).bestSizeResult.CompressionRatio = true ∧
    (selectBest tiedElsewhereResults).bestSizeResult =
      (selectBest tiedElsewhereResults.reverse).bestSizeResult :=
  ⟨(List.reverse_perm tiedElsewhereResults).symm, by decide, by decide, by decide,
   (selection_under_permutation tiedElsewhereResults tiedElsewhereResults.reverse
     (List.reverse_perm tiedElsewhereResults).symm).1,
   (selection_under_permutation tiedElsewhereResults tiedElsewhereResults.reverse
     (List.reverse_perm tiedElsewhereResults).symm).2.1 (by decide),
   (selection_under_permutation tiedElsewhereResults tiedElsewhereResults.reverse
     (List.reverse_perm tiedElsewhereResults).symm).2.2.1 (by decide),
   (selection_under_permutation tiedElsewhereResults tiedElsewhereResults.reverse
     (List.reverse_perm tiedElsewhereResults).symm).2.2.2 (by decide) (by decide)⟩

/-! ## C7: empty collection -/

/-- C7, as stated, fails: with no results the loop body never runs, both
winners are still the zero value and that pair is what `main` hands to the
report writer. -/
theorem empty_selection_counterexample :
    ¬ ((selectBest []).bestTimeResult ≠ CompressionResult.zeroValue ∧
       (selectBest []).bestSizeResult ≠ CompressionResult.zeroValue ∧
       CompressionResult.zeroValue ∉ reportRows []) := by
  decide

/-- C7 (amended). When the collected set of results is empty, the selection
loop ends in its initial state, both winners are the zero-value
`CompressionResult`, and `main` passes that pair to `writeResultsToXLSX`, which
writes them as data rows 2 and 3; there is no failure path. -/
theorem empty_selection_reports_zero_values :
    selectBest [] = Selection.init ∧
    reportRows [] = [CompressionResult.zeroValue, CompressionResult.zeroValue] ∧
    mainReport [] =
      writeResultsToXLSX [CompressionResult.zeroValue, CompressionResult.zeroValue] ∧
    CellWrite.mk "A2" (CellValue.str "") ∈ mainReport [] ∧
    CellWrite.mk "A3" (CellValue.str "") ∈ mainReport [] := by
  refine ⟨rfl, rfl, rfl, by decide, by decide⟩

/-! ## C5: what a successful adapter returns -/

/-- Every entry of `compressionFuncs`, on a run without errors, returns the
populated record built from the buffer length and the elapsed time. -/
theorem compressionFuncs_success (i : Nat) (hi : i < compressionFuncs.length)
    (codec : Codec) (data : List UInt8) (originalSize : Int)
    (hok : (codec data).succeeded = true) :
    compressionFuncs[i] codec data originalSize =
      { Algorithm := algorithmLabels.getD i ""
        CompressedSizeMB := F64.div (F64.ofInt (codec data).bufLen) (F64.ofInt 1048576)
        Duration := (codec data).elapsed
        CompressionRatio :=
          F64.div (F64.ofInt originalSize) (F64.ofInt (codec data).bufLen)
        CompressionSpeed :=
          F64.div (F64.ofInt originalSize) (seconds (codec data).elapsed) } := by
  have h10 : i < 10 := hi
  simp only [CodecRun.succeeded, Bool.and_eq_true, Bool.not_eq_true'] at hok
  obtain ⟨⟨h1, h2⟩, h3⟩ := hok
  interval_cases i <;>
    simp [compressionFuncs, algorithmLabels, compressGzip, compressZlib, compressBzip2,
      compressLzw, compressLzma, compressXZ, compressBrotli, compressLz4, compressZstd,
      compressZip, bytesToMB, h1, h2, h3]

/-- C5. For every registered adapter, every input and every `originalSize`,
when no encoder call reports an error the result carries the adapter's own
label, `CompressedSizeMB = float64(len) / 1048576`, the measured duration,
`CompressionRatio = float64(originalSize) / float64(len)` and
`CompressionSpeed = float64(originalSize) / duration.Seconds()`, where `len` is
the number of bytes in the output buffer. -/
theorem adapter_measurement (i : Nat) (hi : i < compressionFuncs.length)
    (codec : Codec) (data : List UInt8) (originalSize : Int)
    (hok : (codec data).succeeded = true) :
    compressionFuncs[i] codec data originalSize =
      { Algorithm := algorithmLabels.getD i ""
        CompressedSizeMB := F64.div (F64.ofInt (codec data).bufLen) (F64.ofInt 1048576)
        Duration := (codec data).elapsed
        CompressionRatio :=
          F64.div (F64.ofInt originalSize) (F64.ofInt (codec data).bufLen)
        CompressionSpeed :=
          F64.div (F64.ofInt originalSize) (seconds (codec data).elapsed) } :=
  compressionFuncs_success i hi codec data originalSize hok

/-- Instance of C5: the ZIP adapter on a run without errors. -/
theorem adapter_measurement_witness :
    9 < compressionFuncs.length ∧ (okCodec 50 1000 input100).succeeded = true ∧
    compressionFuncs[9] (okCodec 50 1000) input100 100 =
      { Algorithm := algorithmLabels.getD 9 ""
        CompressedSizeMB := F64.div (F64.ofInt (okCodec 50 1000 input100).bufLen) (F64.ofInt 1048576)
        Duration := (okCodec 50 1000 input100).elapsed
        CompressionRatio :=
          F64.div (F64.ofInt 100) (F64.ofInt (okCodec 50 1000 input100).bufLen)
        CompressionSpeed :=
          F64.div (F64.ofInt 100) (seconds (okCodec 50 1000 input100).elapsed) } :=
  ⟨by decide, by decide,
   adapter_measurement 9 (by decide) (okCodec 50 1000) input100 100 (by decide)⟩

/-! ## C4: the ratio when the output buffer is empty -/

theorem ilog2_one_ge (n : Nat) : -1 ≤ F64.ilog2 n 1 := by
  have h1 : F64.log2 1 = 0 := rfl
  simp only [F64.ilog2, h1]
  split <;> omega

theorem roundMag_le (n d : Nat) : F64.roundMag n d ≤ 2047 * 2 ^ 52 := by
  simp only [F64.roundMag]
  split
  · exact Nat.zero_le _
  · exact min_le_right _ _

theorem roundMag_one_pos (n : Nat) (hn : n ≠ 0) : 0 < F64.roundMag n 1 := by
  simp only [F64.roundMag]
  rw [if_neg (by simp [hn])]
  apply lt_min
  · have hl := ilog2_one_ge n
    have hb : 1 ≤ (max (F64.ilog2 n 1 + 1023) 1).toNat - 1 := by omega
    have hp : 2 ^ 52 ≤ ((max (F64.ilog2 n 1 + 1023) 1).toNat - 1) * 2 ^ 52 :=
      Nat.le_mul_of_pos_left _ hb
    have h52 : 0 < 2 ^ 52 := by norm_num
    omega
  · norm_num

theorem mag_ofMag (s : Bool) (m : Nat) : (F64.ofMag s m).mag = m := by
  simp only [F64.ofMag, F64.mag]
  exact Nat.div_add_mod' m (2 ^ 52)

theorem ofMag_roundMag_expo (s : Bool) (n d : Nat) :
    (F64.ofMag s (F64.roundMag n d)).expo < 2047 ∨
      ((F64.ofMag s (F64.roundMag n d)).expo = 2047 ∧
        (F64.ofMag s (F64.roundMag n d)).mant = 0) := by
  have hle := roundMag_le n d
  simp only [F64.ofMag]
  have hdm := Nat.div_add_mod (F64.roundMag n d) (2 ^ 52)
  have hmod := Nat.mod_lt (F64.roundMag n d) (by norm_num : 0 < 2 ^ 52)
  omega

theorem isNaN_ofInt (i : Int) : (F64.ofInt i).isNaN = false := by
  rcases ofMag_roundMag_expo (decide (i < 0)) i.natAbs 1 with h | ⟨h1, h2⟩
  · simp only [F64.isNaN, F64.ofInt, Bool.and_eq_false_iff, beq_eq_false_iff_ne]
    exact Or.inl (Nat.ne_of_lt h)
  · simp [F64.isNaN, F64.ofInt, h2]

theorem ofInt_zero : F64.ofInt 0 = F64.zero := by decide

theorem mag_ofInt_ne_zero (i : Int) (hi : i ≠ 0) : (F64.ofInt i).mag ≠ 0 := by
  simp only [F64.ofInt, mag_ofMag]
  exact Nat.ne_of_gt (roundMag_one_pos _ (Int.natAbs_ne_zero.2 hi))

theorem sign_ofInt (i : Int) : (F64.ofInt i).sign = decide (i < 0) := rfl

/-- Dividing a converted integer by `float64(0)`: NaN for 0, otherwise the
infinity with the sign of the integer. -/
theorem div_ofInt_zero (i : Int) :
    F64.div (F64.ofInt i) (F64.ofInt 0) =
      if i = 0 then F64.nan else F64.inf (decide (i < 0)) := by
  by_cases hi : i = 0
  · subst hi; decide
  · rw [if_neg hi, ofInt_zero]
    have hnan := isNaN_ofInt i
    have hmag := mag_ofInt_ne_zero i hi
    have hs := sign_ofInt i
    have hz1 : F64.zero.isNaN = false := by decide
    have hz2 : F64.zero.isInf = false := by decide
    have hz3 : F64.zero.mag = 0 := by decide
    have hz4 : F64.zero.sign = false := rfl
    simp only [F64.div, hnan, hz1, hz2, hz3, hz4, hs, Bool.or_self, Bool.false_eq_true,
      if_false, if_true, hmag, Bool.bne_false]
    split <;> rfl

/-- C4, as stated, fails: zstd on a 0-byte input leaves an empty buffer, so
`compressZstd` evaluates `0 / 0`; the ratio is a NaN, not a finite sentinel. -/
theorem unguarded_division_counterexample :
    (zstdEmptyRun []).succeeded = true ∧ (zstdEmptyRun []).bufLen = 0 ∧
    (compressZstd zstdEmptyRun [] 0).CompressionRatio.isNaN = true ∧
    ¬ (compressZstd zstdEmptyRun [] 0).CompressionRatio.isFinite = true := by
  decide

/-- C4 (amended). No adapter guards the division: for every registered adapter
and every input, when no encoder call reports an error and the output buffer
has length 0, the returned `CompressionRatio` is `float64(originalSize) / 0`,
which is not finite: a NaN when `originalSize = 0`, and otherwise the infinity
with the sign of `originalSize`. -/
theorem empty_buffer_ratio (i : Nat) (hi : i < compressionFuncs.length)
    (codec : Codec) (data : List UInt8) (originalSize : Int)
    (hok : (codec data).succeeded = true) (hlen : (codec data).bufLen = 0) :
    (compressionFuncs[i] codec data originalSize).CompressionRatio.isFinite = false ∧
    ((originalSize = 0 ∧
        (compressionFuncs[i] codec data originalSize).CompressionRatio.isNaN = true) ∨
      (originalSize ≠ 0 ∧
        (compressionFuncs[i] codec data originalSize).CompressionRatio =
          F64.inf (decide (originalSize < 0)))) := by
  have hval : (compressionFuncs[i] codec data originalSize).CompressionRatio =
      (if originalSize = 0 then F64.nan else F64.inf (decide (originalSize < 0))) := by
    rw [compressionFuncs_success i hi codec data originalSize hok, hlen]
    exact div_ofInt_zero originalSize
  rw [hval]
  by_cases h0 : originalSize = 0
  · rw [if_pos h0]
    exact ⟨by decide, Or.inl ⟨h0, by decide⟩⟩
  · rw [if_neg h0]
    refine ⟨?_, Or.inr ⟨h0, rfl⟩⟩
    cases decide (originalSize < 0) <;> decide

/-- Instance of C4 (amended): the zstd adapter (entry 8) on a 0-byte input. -/
theorem empty_buffer_ratio_witness :
    8 < compressionFuncs.length ∧ (zstdEmptyRun []).succeeded = true ∧
    (zstdEmptyRun []).bufLen = 0 ∧
    (compressionFuncs[8] zstdEmptyRun [] 0).CompressionRatio.isFinite = false ∧
    (((0 : Int) = 0 ∧
        (compressionFuncs[8] zstdEmptyRun [] 0).CompressionRatio.isNaN = true) ∨
      ((0 : Int) ≠ 0 ∧
        (compressionFuncs[8] zstdEmptyRun [] 0).CompressionRatio =
          F64.inf (decide ((0 : Int) < 0)))) :=
  ⟨by decide, by decide, by decide,
   empty_buffer_ratio 8 (by decide) zstdEmptyRun [] 0 (by decide) (by decide)⟩

/-! ## C10: the report -/

/-- The five cells written for element `i` when the data loop starts counting
at `start`. -/
theorem writeRows_mem (results : List CompressionResult) :
    ∀ (start i : Nat) (r : CompressionResult), results[i]? = some r →
      CellWrite.mk ("A" ++ toString (start + i + 2)) (CellValue.str r.Algorithm)
          ∈ writeRows start results ∧
      CellWrite.mk ("C" ++ toString (start + i + 2)) (CellValue.num r.CompressedSizeMB)
          ∈ writeRows start results ∧
      CellWrite.mk ("D" ++ toString (start + i + 2)) (CellValue.num r.CompressionRatio)
          ∈ writeRows start results ∧
      CellWrite.mk ("E" ++ toString (start + i + 2)) (CellValue.num r.CompressionSpeed)
          ∈ writeRows start results ∧
      CellWrite.mk ("F" ++ toString (start + i + 2)) (CellValue.num (seconds r.Duration))
          ∈ writeRows start results := by
  induction results with
  | nil => intro start i r h; simp at h
  | cons x xs ih =>
    intro start i r h
    cases i with
    | zero =>
      have hx : x = r := by simpa using h
      subst hx
      simp [writeRows]
    | succ j =>
      have hj : xs[j]? = some r := by simpa using h
      have hidx : start + (j + 1) + 2 = start + 1 + j + 2 := by omega
      obtain ⟨h1, h2, h3, h4, h5⟩ := ih (start + 1) j r hj
      rw [hidx]
      simp only [writeRows, List.cons_append, List.nil_append, List.mem_cons]
      exact ⟨by simp [h1], by simp [h2], by simp [h3], by simp [h4], by simp [h5]⟩

/-- The data loop never addresses column B. -/
theorem writeRows_not_B (results : List CompressionResult) :
    ∀ (start : Nat) (w : CellWrite), w ∈ writeRows start results →
      w.cell.data.head? ≠ some 'B' := by
  induction results with
  | nil => intro start w h; simp [writeRows] at h
  | cons x xs ih =>
    intro start w h
    simp only [writeRows, List.cons_append, List.nil_append, List.mem_cons] at h
    rcases h with h | h | h | h | h | h
    · rw [h]; simp [String.data_append]
    · rw [h]; simp [String.data_append]
    · rw [h]; simp [String.data_append]
    · rw [h]; simp [String.data_append]
    · rw [h]; simp [String.data_append]
    · exact ih (start + 1) w h

/-- C10. For every drained sequence `rs`, `main` hands `writeResultsToXLSX`
exactly the two-element slice (time winner, ratio winner); the sheet then
receives the six header cells of row 1, the time winner on row 2 and the ratio
winner on row 3, each in columns A, C, D, E, F.  In general
`writeResultsToXLSX` writes element `i` of its argument `results` on row
`i + 2` in those columns (Algorithm, compressed size, ratio, speed, duration
in seconds), and the only write it makes in column B is the header B1. -/
theorem report_layout (rs results : List CompressionResult) (i : Nat)
    (r : CompressionResult) (hget : results[i]? = some r) :
    reportRows rs = [(selectBest rs).bestTimeResult, (selectBest rs).bestSizeResult] ∧
    (reportRows rs).length = 2 ∧
    mainReport rs =
      [ ⟨"A1", CellValue.str "Algorithm"⟩,
        ⟨"B1", CellValue.str "Original Size (MB)"⟩,
        ⟨"C1", CellValue.str "Compressed Size (MB)"⟩,
        ⟨"D1", CellValue.str "Compression Ratio"⟩,
        ⟨"E1", CellValue.str "Compression Speed (B/s)"⟩,
        ⟨"F1", CellValue.str "Time Taken (seconds)"⟩,
        ⟨"A2", CellValue.str (selectBest rs).bestTimeResult.Algorithm⟩,
        ⟨"C2", CellValue.num (selectBest rs).bestTimeResult.CompressedSizeMB⟩,
        ⟨"D2", CellValue.num (selectBest rs).bestTimeResult.CompressionRatio⟩,
        ⟨"E2", CellValue.num (selectBest rs).bestTimeResult.CompressionSpeed⟩,
        ⟨"F2", CellValue.num (seconds (selectBest rs).bestTimeResult.Duration)⟩,
        ⟨"A3", CellValue.str (selectBest rs).bestSizeResult.Algorithm⟩,
        ⟨"C3", CellValue.num (selectBest rs).bestSizeResult.CompressedSizeMB⟩,
        ⟨"D3", CellValue.num (selectBest rs).bestSizeResult.CompressionRatio⟩,
        ⟨"E3", CellValue.num (selectBest rs).bestSizeResult.CompressionSpeed⟩,
        ⟨"F3", CellValue.num (seconds (selectBest rs).bestSizeResult.Duration)⟩ ] ∧
    CellWrite.mk ("A" ++ toString (i + 2)) (CellValue.str r.Algorithm)
        ∈ writeResultsToXLSX results ∧
    CellWrite.mk ("C" ++ toString (i + 2)) (CellValue.num r.CompressedSizeMB)
        ∈ writeResultsToXLSX results ∧
    CellWrite.mk ("D" ++ toString (i + 2)) (CellValue.num r.CompressionRatio)
        ∈ writeResultsToXLSX results ∧
    CellWrite.mk ("E" ++ toString (i + 2)) (CellValue.num r.CompressionSpeed)
        ∈ writeResultsToXLSX results ∧
    CellWrite.mk ("F" ++ toString (i + 2)) (CellValue.num (seconds r.Duration))
        ∈ writeResultsToXLSX results ∧
    (writeResultsToXLSX results).filter (fun w => w.cell.data.head? == some 'B') =
      [⟨"B1", CellValue.str "Original Size (MB)"⟩] := by
  refine ⟨rfl, rfl, ?_, ?_⟩
  · have hh : writeHeaders 0 headers =
        [ ⟨"A1", CellValue.str "Algorithm"⟩,
          ⟨"B1", CellValue.str "Original Size (MB)"⟩,
          ⟨"C1", CellValue.str "Compressed Size (MB)"⟩,
          ⟨"D1", CellValue.str "Compression Ratio"⟩,
          ⟨"E1", CellValue.str "Compression Speed (B/s)"⟩,
          ⟨"F1", CellValue.str "Time Taken (seconds)"⟩ ] := by decide
    have h2 : ("A" ++ toString 2 = "A2" ∧ "C" ++ toString 2 = "C2" ∧ "D" ++ toString 2 = "D2" ∧
        "E" ++ toString 2 = "E2" ∧ "F" ++ toString 2 = "F2") := by decide
    have h3 : ("A" ++ toString 3 = "A3" ∧ "C" ++ toString 3 = "C3" ∧ "D" ++ toString 3 = "D3" ∧
        "E" ++ toString 3 = "E3" ∧ "F" ++ toString 3 = "F3") := by decide
    simp only [mainReport, reportRows, writeResultsToXLSX, hh, writeRows, Nat.zero_add,
      Nat.reduceAdd, h2, h3, List.cons_append, List.nil_append, List.append_nil]
  · obtain ⟨h1, h2, h3, h4, h5⟩ := writeRows_mem results 0 i r hget
    simp only [Nat.zero_add] at h1 h2 h3 h4 h5
    simp only [writeResultsToXLSX, List.mem_append, List.filter_append]
    refine ⟨Or.inr h1, Or.inr h2, Or.inr h3, Or.inr h4, Or.inr h5, ?_⟩
    have hrows : (writeRows 0 results).filter (fun w => w.cell.data.head? == some 'B') = [] := by
      rw [List.filter_eq_nil_iff]
      intro w hw
      simpa using writeRows_not_B results 0 w hw
    have hhead : (writeHeaders 0 headers).filter (fun w => w.cell.data.head? == some 'B') =
        [⟨"B1", CellValue.str "Original Size (MB)"⟩] := by decide
    rw [hrows, hhead]; rfl

/-- Instance of C10: the report of three runs, and element 1 of a three-element argument. -/
theorem report_layout_witness :
    sampleResults[1]? = some (compressZlib (okCodec 40 1000) input100 100) ∧
    reportRows sampleResults =
      [(selectBest sampleResults).bestTimeResult, (selectBest sampleResults).bestSizeResult] ∧
    (reportRows sampleResults).length = 2 ∧
    mainReport sampleResults =
      [ ⟨"A1", CellValue.str "Algorithm"⟩,
        ⟨"B1", CellValue.str "Original Size (MB)"⟩,
        ⟨"C1", CellValue.str "Compressed Size (MB)"⟩,
        ⟨"D1", CellValue.str "Compression Ratio"⟩,
        ⟨"E1", CellValue.str "Compression Speed (B/s)"⟩,
        ⟨"F1", CellValue.str "Time Taken (seconds)"⟩,
        ⟨"A2", CellValue.str (selectBest sampleResults).bestTimeResult.Algorithm⟩,
        ⟨"C2", CellValue.num (selectBest sampleResults).bestTimeResult.CompressedSizeMB⟩,
        ⟨"D2", CellValue.num (selectBest sampleResults).bestTimeResult.CompressionRatio⟩,
        ⟨"E2", CellValue.num (selectBest sampleResults).bestTimeResult.CompressionSpeed⟩,
        ⟨"F2", CellValue.num (seconds (selectBest sampleResults).bestTimeResult.Duration)⟩,
        ⟨"A3", CellValue.str (selectBest sampleResults).bestSizeResult.Algorithm⟩,
        ⟨"C3", CellValue.num (selectBest sampleResults).bestSizeResult.CompressedSizeMB⟩,
        ⟨"D3", CellValue.num (selectBest sampleResults).bestSizeResult.CompressionRatio⟩,
        ⟨"E3", CellValue.num (selectBest sampleResults).bestSizeResult.CompressionSpeed⟩,
        ⟨"F3", CellValue.num (seconds (selectBest sampleResults).bestSizeResult.Duration)⟩ ] ∧
    CellWrite.mk ("A" ++ toString (1 + 2))
        (CellValue.str (compressZlib (okCodec 40 1000) input100 100).Algorithm)
        ∈ writeResultsToXLSX sampleResults ∧
    CellWrite.mk ("C" ++ toString (1 + 2))
        (CellValue.num (compressZlib (okCodec 40 1000) input100 100).CompressedSizeMB)
        ∈ writeResultsToXLSX sampleResults ∧
    CellWrite.mk ("D" ++ toString (1 + 2))
        (CellValue.num (compressZlib (okCodec 40 1000) input100 100).CompressionRatio)
        ∈ writeResultsToXLSX sampleResults ∧
    CellWrite.mk ("E" ++ toString (1 + 2))
        (CellValue.num (compressZlib (okCodec 40 1000) input100 100).CompressionSpeed)
        ∈ writeResultsToXLSX sampleResults ∧
    CellWrite.mk ("F" ++ toString (1 + 2))
        (CellValue.num (seconds (compressZlib (okCodec 40 1000) input100 100).Duration))
        ∈ writeResultsToXLSX sampleResults ∧
    (writeResultsToXLSX sampleResults).filter (fun w => w.cell.data.head? == some 'B') =
      [⟨"B1", CellValue.str "Original Size (MB)"⟩] :=
  ⟨by decide,
   report_layout sampleResults sampleResults 1 (compressZlib (okCodec 40 1000) input100 100)
     (by decide)⟩

end Compression
